import Mathlib

/-!
# Verification of the tink-rust keyset-handle and streaming-AEAD core

Shallow embedding of `src/tink/src/keyset/handle.rs`,
`src/streaming/src/subtle/aes_gcm_hkdf.rs` and the key templates, with
proofs of the specified properties.  Bytes are modelled as `List Nat`
(values below 256 where relevant), Rust `Result` as `Except String`,
and protobuf enum fields as the `i32` values the source compares against.
External collaborators (registry managers, the AES-GCM engine, HKDF,
byte sinks and sources) are parameters of the embedding, exactly as the
source treats them as trait objects.
-/

namespace TinkProof

/-- Big-endian 4-byte encoding of a 32-bit value (key ids, segment counters). -/
def be32 (n : Nat) : List Nat :=
  [n / 16777216 % 256, n / 65536 % 256, n / 256 % 256, n % 256]

/-! ## Keyset data model (protobuf messages used by `keyset/handle.rs`) -/

/-- `KeyMaterialType` from the key-data proto: numbering follows the proto
(`UNKNOWN_KEYMATERIAL = 0`, `SYMMETRIC = 1`, `ASYMMETRIC_PRIVATE = 2`,
`ASYMMETRIC_PUBLIC = 3`, `REMOTE = 4`). -/
inductive KeyMaterialType where
  | UnknownKeymaterial
  | Symmetric
  | AsymmetricPrivate
  | AsymmetricPublic
  | Remote
deriving DecidableEq, Repr

/-- `KeyMaterialType::from_i32`: decode the raw `i32` stored in the proto
field, `none` for unrecognized values. -/
def KeyMaterialType.from_i32 (n : Int) : Option KeyMaterialType :=
  if n = 0 then some .UnknownKeymaterial
  else if n = 1 then some .Symmetric
  else if n = 2 then some .AsymmetricPrivate
  else if n = 3 then some .AsymmetricPublic
  else if n = 4 then some .Remote
  else none

/-- `KeyData`: type URL, opaque serialized key bytes, and the raw
`key_material_type` discriminant (an `i32` in the proto). -/
structure KeyData where
  type_url : String
  value : List Nat
  key_material_type : Int
deriving DecidableEq, Repr

/-- `KeyStatusType::Enabled as i32` (proto numbering: `ENABLED = 1`). -/
def enabledStatus : Int := 1

/-- `Keyset::Key`: optional key data, raw status and output-prefix
discriminants, and the 32-bit key id. -/
structure Key where
  key_data : Option KeyData
  status : Int
  key_id : Nat
  output_prefix_type : Int
deriving DecidableEq, Repr

/-- `Keyset`: ordered list of keys plus the primary key id. -/
structure Keyset where
  primary_key_id : Nat
  key : List Key
deriving DecidableEq, Repr

/-- `keyset::Handle`: opaque holder of a `Keyset`. -/
structure Handle where
  ks : Keyset
deriving DecidableEq, Repr

/-! ## `Handle::has_secrets` and the no-secrets I/O discipline -/

/-- The loop body of `Handle::has_secrets` (handle.rs lines 182-197):
walk the keys, skip keys with no key data, return `true` on the first
secret material type (or unrecognized value), `false` if none is found. -/
def hasSecretsList : List Key → Bool
  | [] => false
  | k :: rest =>
    match k.key_data with
    | none => hasSecretsList rest
    | some kd =>
      match KeyMaterialType.from_i32 kd.key_material_type with
      | some .UnknownKeymaterial => true
      | some .Symmetric => true
      | some .AsymmetricPrivate => true
      | some .AsymmetricPublic => hasSecretsList rest
      | some .Remote => hasSecretsList rest
      | none => true

/-- `Handle::has_secrets`. -/
def Handle.has_secrets (h : Handle) : Bool :=
  hasSecretsList h.ks.key

/-- `Handle::write_with_no_secrets` (handle.rs lines 110-119); the
underlying `keyset::Writer` is a parameter, as in the source it is a
caller-supplied trait object. -/
def Handle.write_with_no_secrets (h : Handle) (w : Keyset → Except String Unit) :
    Except String Unit :=
  if h.has_secrets then
    .error ("exporting unencrypted secret key material is forbidden")
  else
    w h.ks

/-- `Handle::new_with_no_secrets` (handle.rs lines 42-49). -/
def Handle.new_with_no_secrets (ks : Keyset) : Except String Handle :=
  let h : Handle := { ks := ks }
  if h.has_secrets then
    .error ("importing unencrypted secret key material is forbidden")
  else
    .ok h

/-- A key-data material discriminant counts as secret exactly when it decodes
to `Symmetric`, `AsymmetricPrivate` or `UnknownKeymaterial`, or fails to
decode at all. -/
theorem hasSecretsList_iff (l : List Key) :
    hasSecretsList l = true ↔ ∃ k ∈ l, ∃ kd, k.key_data = some kd ∧
      (KeyMaterialType.from_i32 kd.key_material_type = some .Symmetric ∨
       KeyMaterialType.from_i32 kd.key_material_type = some .AsymmetricPrivate ∨
       KeyMaterialType.from_i32 kd.key_material_type = some .UnknownKeymaterial ∨
       KeyMaterialType.from_i32 kd.key_material_type = none) := by
  induction l with
  | nil => simp [hasSecretsList]
  | cons k rest ih =>
    rw [hasSecretsList]
    cases hkd : k.key_data with
    | none =>
      constructor
      · intro hr
        obtain ⟨k', hmem, kd', hkd', hsec⟩ := ih.mp hr
        exact ⟨k', List.mem_cons_of_mem _ hmem, kd', hkd', hsec⟩
      · rintro ⟨k', hmem, kd', hkd', hsec⟩
        rcases List.mem_cons.mp hmem with heq | hmem'
        · subst heq
          rw [hkd] at hkd'
          exact absurd hkd' (by simp)
        · exact ih.mpr ⟨k', hmem', kd', hkd', hsec⟩
    | some kd =>
      cases hm : KeyMaterialType.from_i32 kd.key_material_type with
      | none =>
        simp only [hm]
        exact iff_of_true trivial
          ⟨k, List.mem_cons_self k rest, kd, hkd, Or.inr (Or.inr (Or.inr hm))⟩
      | some m =>
        cases m with
        | UnknownKeymaterial =>
          simp only [hm]
          exact iff_of_true trivial
            ⟨k, List.mem_cons_self k rest, kd, hkd, Or.inr (Or.inr (Or.inl hm))⟩
        | Symmetric =>
          simp only [hm]
          exact iff_of_true trivial
            ⟨k, List.mem_cons_self k rest, kd, hkd, Or.inl hm⟩
        | AsymmetricPrivate =>
          simp only [hm]
          exact iff_of_true trivial
            ⟨k, List.mem_cons_self k rest, kd, hkd, Or.inr (Or.inl hm)⟩
        | AsymmetricPublic =>
          simp only [hm]
          constructor
          · intro hr
            obtain ⟨k', hmem, kd', hkd', hsec⟩ := ih.mp hr
            exact ⟨k', List.mem_cons_of_mem _ hmem, kd', hkd', hsec⟩
          · rintro ⟨k', hmem, kd', hkd', hsec⟩
            rcases List.mem_cons.mp hmem with heq | hmem'
            · subst heq
              rw [hkd] at hkd'
              injection hkd' with e
              subst e
              rcases hsec with h1 | h1 | h1 | h1 <;> rw [hm] at h1 <;> simp at h1
            · exact ih.mpr ⟨k', hmem', kd', hkd', hsec⟩
        | Remote =>
          simp only [hm]
          constructor
          · intro hr
            obtain ⟨k', hmem, kd', hkd', hsec⟩ := ih.mp hr
            exact ⟨k', List.mem_cons_of_mem _ hmem, kd', hkd', hsec⟩
          · rintro ⟨k', hmem, kd', hkd', hsec⟩
            rcases List.mem_cons.mp hmem with heq | hmem'
            · subst heq
              rw [hkd] at hkd'
              injection hkd' with e
              subst e
              rcases hsec with h1 | h1 | h1 | h1 <;> rw [hm] at h1 <;> simp at h1
            · exact ih.mpr ⟨k', hmem', kd', hkd', hsec⟩

/-- C5: no-secrets discipline.  Provided the underlying writer accepts the
keyset, `write_with_no_secrets` fails exactly when `has_secrets` holds;
`new_with_no_secrets` fails on exactly the same keysets; and `has_secrets`
holds exactly when some key's key-data has a material type decoding to
`Symmetric`, `AsymmetricPrivate` or `UnknownKeymaterial`, or an
unrecognized value. -/
theorem no_secrets_discipline (h : Handle) (w : Keyset → Except String Unit)
    (hw : w h.ks = .ok ()) :
    ((h.write_with_no_secrets w).isOk = false ↔ h.has_secrets = true)
    ∧ ((Handle.new_with_no_secrets h.ks).isOk = false ↔ h.has_secrets = true)
    ∧ (h.has_secrets = true ↔ ∃ k ∈ h.ks.key, ∃ kd, k.key_data = some kd ∧
        (KeyMaterialType.from_i32 kd.key_material_type = some .Symmetric ∨
         KeyMaterialType.from_i32 kd.key_material_type = some .AsymmetricPrivate ∨
         KeyMaterialType.from_i32 kd.key_material_type = some .UnknownKeymaterial ∨
         KeyMaterialType.from_i32 kd.key_material_type = none)) := by
  refine ⟨?_, ?_, hasSecretsList_iff h.ks.key⟩
  · rw [Handle.write_with_no_secrets]
    cases hs : h.has_secrets with
    | true => simp [Except.isOk, Except.toBool]
    | false => simp [hw, Except.isOk, Except.toBool]
  · rw [Handle.new_with_no_secrets]
    have : Handle.has_secrets { ks := h.ks } = h.has_secrets := rfl
    rw [this]
    cases hs : h.has_secrets with
    | true => simp [Except.isOk, Except.toBool]
    | false => simp [Except.isOk, Except.toBool]

/-- A concrete handle holding one symmetric key, for the C5 witness. -/
def handleC5 : Handle :=
  { ks := { primary_key_id := 1,
            key := [{ key_data := some { type_url := "t", value := [], key_material_type := 1 },
                      status := 1, key_id := 1, output_prefix_type := 1 }] } }

/-- A writer that accepts every keyset, for the C5 witness. -/
def writerC5 : Keyset → Except String Unit := fun _ => .ok ()

/-- C5 witness: the theorem applied to a concrete symmetric-key handle and a
writer that accepts everything. -/
theorem no_secrets_discipline_witness :
    (handleC5.write_with_no_secrets writerC5).isOk = false ↔
      handleC5.has_secrets = true :=
  (no_secrets_discipline handleC5 writerC5 rfl).1

/-! ## Keyset info, `Handle::write` and the Debug formatter -/

/-- `KeysetInfo::KeyInfo`: the redacted per-key record. -/
structure KeyInfo where
  type_url : String
  status : Int
  key_id : Nat
  output_prefix_type : Int
deriving DecidableEq, Repr

/-- `KeysetInfo`: redacted keyset summary. -/
structure KeysetInfo where
  primary_key_id : Nat
  key_info : List KeyInfo
deriving DecidableEq, Repr

/-- `EncryptedKeyset`: AEAD-wrapped keyset bytes plus the redacted info. -/
structure EncryptedKeyset where
  encrypted_keyset : List Nat
  keyset_info : Option KeysetInfo
deriving DecidableEq, Repr

/-- `get_key_info` (handle.rs lines 273-285).  The source reads the key
data with `.expect("key with no key_data")`, which PANICS when the key
data is absent; the panic is modelled as `none`. -/
def get_key_info (key : Key) : Option KeyInfo :=
  match key.key_data with
  | none => none
  | some kd =>
    some { type_url := kd.type_url, status := key.status,
           key_id := key.key_id, output_prefix_type := key.output_prefix_type }

/-- The loop of `get_keyset_info` (lines 259-269), propagating the
modelled panic of `get_key_info`. -/
def keyInfosOf : List Key → Option (List KeyInfo)
  | [] => some []
  | k :: rest =>
    match get_key_info k with
    | none => none
    | some i =>
      match keyInfosOf rest with
      | none => none
      | some is => some (i :: is)

/-- `get_keyset_info` (lines 259-269): `none` models the panic reached
through `get_key_info` when some key has no key data. -/
def get_keyset_info (ks : Keyset) : Option KeysetInfo :=
  match keyInfosOf ks.key with
  | none => none
  | some infos => some { primary_key_id := ks.primary_key_id, key_info := infos }

/-- `Handle::write` (lines 98-106) composed with `encrypt` (lines 237-255):
proto serialization and the master AEAD are external collaborators, passed
as total functions; the outer `Option` is `none` exactly when the
`get_keyset_info` call inside `encrypt` panics. -/
def Handle.write (h : Handle) (serialize : Keyset → List Nat)
    (masterEnc : List Nat → List Nat)
    (writeEncrypted : EncryptedKeyset → Except String Unit) :
    Option (Except String Unit) :=
  match get_keyset_info h.ks with
  | none => none
  | some info =>
    some (writeEncrypted
      { encrypted_keyset := masterEnc (serialize h.ks), keyset_info := some info })

/-- The `Debug` impl for `Handle` (lines 287-293) formats
`get_keyset_info(&self.ks)`; `none` models the panic. -/
def Handle.debugFmt (h : Handle) : Option KeysetInfo :=
  match get_keyset_info h.ks with
  | none => none
  | some info => some info

/-- A keyset whose second key is Destroyed: its key data is cleared
(absent), its id and status are retained. -/
def destroyedKeyset : Keyset :=
  { primary_key_id := 1,
    key := [{ key_data := some { type_url := "t", value := [1], key_material_type := 1 },
              status := 1, key_id := 1, output_prefix_type := 1 },
            { key_data := none, status := 3, key_id := 2, output_prefix_type := 1 }] }

/-- C9: the library panics (modelled `none`) in `Handle::write` and in the
`Debug` formatter on a keyset holding a Destroyed key, whose key data is
absent: `get_key_info` unwraps the key data with
`.expect("key with no key_data")`.  This contradicts the specified
never-panic policy, so the code, not the claim, is at fault. -/
theorem write_and_debug_panic_on_absent_key_data :
    Handle.write { ks := destroyedKeyset } (fun _ => []) (fun b => b)
        (fun _ => .ok ()) = none
    ∧ Handle.debugFmt { ks := destroyedKeyset } = none := by
  constructor <;> rfl

/-! ## Registry key managers and public-key extraction -/

/-- The `registry::KeyManager` capability surface used by `handle.rs`,
over an abstract primitive type `P` (the live cryptographic object). -/
structure KeyManager (P : Type) where
  type_url : String
  does_support : String → Bool
  primitive : List Nat → Except String P
  supports_private_keys : Bool
  public_key_data : List Nat → Except String KeyData

/-- The process-wide registry: the map from type URL to the installed
manager (`none` when no manager is registered). -/
def Registry (P : Type) : Type := String → Option (KeyManager P)

/-- `registry::get_key_manager`: the registered manager, or NotFound. -/
def getKeyManager {P : Type} (reg : Registry P) (url : String) :
    Except String (KeyManager P) :=
  match reg url with
  | some km => .ok km
  | none => .error ("registry: no manager for " ++ url)

/-- Modelled from the spec: `registry::primitive_from_key_data` is not under
src/; per §4.1 it dispatches to the manager registered for the key data's
type URL and fails when none is present. -/
def primitive_from_key_data {P : Type} (reg : Registry P) (kd : KeyData) :
    Except String P :=
  match getKeyManager reg kd.type_url with
  | .error e => .error e
  | .ok km => km.primitive kd.value

/-- `public_key_data` (handle.rs lines 201-219): rejects non-private
material, then asks the registered manager for the public key data. -/
def public_key_data {P : Type} (reg : Registry P) (priv_key_data : KeyData) :
    Except String KeyData :=
  if priv_key_data.key_material_type ≠ 2 then
    .error ("keyset::Handle: keyset contains a non-private key")
  else
    match getKeyManager reg priv_key_data.type_url with
    | .error e => .error e
    | .ok km =>
      if !km.supports_private_keys then
        .error ("keyset::Handle: manager does not handle private keys")
      else
        km.public_key_data priv_key_data.value

/-- The loop of `Handle::public` (lines 74-96): map every key through
`public_key_data`, erroring on absent key data, preserving id, status and
output-prefix policy. -/
def publicKeysLoop {P : Type} (reg : Registry P) : List Key → Except String (List Key)
  | [] => .ok []
  | priv_key :: rest =>
    match priv_key.key_data with
    | none => .error ("keyset::Handle: invalid keyset")
    | some priv_key_data =>
      match public_key_data reg priv_key_data with
      | .error e => .error e
      | .ok pub_kd =>
        match publicKeysLoop reg rest with
        | .error e => .error e
        | .ok pubs =>
          .ok ({ key_data := some pub_kd, status := priv_key.status,
                 key_id := priv_key.key_id,
                 output_prefix_type := priv_key.output_prefix_type } :: pubs)

/-- `Handle::public` (lines 74-96), with the global registry passed
explicitly. -/
def Handle.public {P : Type} (reg : Registry P) (h : Handle) : Except String Handle :=
  match publicKeysLoop reg h.ks.key with
  | .error e => .error e
  | .ok pub_keys =>
    .ok { ks := { primary_key_id := h.ks.primary_key_id, key := pub_keys } }

/-- If some key has absent key data, the `Handle::public` loop fails. -/
theorem publicKeysLoop_err_of_absent {P : Type} (reg : Registry P) :
    ∀ l : List Key, (∃ k ∈ l, k.key_data = none) →
      (publicKeysLoop reg l).isOk = false := by
  intro l
  induction l with
  | nil =>
    rintro ⟨k, hk, _⟩
    exact absurd hk (List.not_mem_nil k)
  | cons k rest ih =>
    rintro ⟨k', hmem, hnone⟩
    rw [publicKeysLoop]
    split
    · rfl
    next kd hkd =>
      have hrest : ∃ x ∈ rest, x.key_data = none := by
        rcases List.mem_cons.mp hmem with heq | hm
        · subst heq
          rw [hkd] at hnone
          exact absurd hnone (by simp)
        · exact ⟨k', hm, hnone⟩
      split
      · rfl
      next pub_kd hpub =>
        split
        · rfl
        next pubs hloop =>
          have hr := ih hrest
          rw [hloop] at hr
          exact absurd hr (by simp [Except.isOk, Except.toBool])

/-- If some key's key data is present but not asymmetric-private, the
`Handle::public` loop fails. -/
theorem publicKeysLoop_err_of_nonprivate {P : Type} (reg : Registry P) :
    ∀ l : List Key,
      (∃ k ∈ l, ∃ kd, k.key_data = some kd ∧ kd.key_material_type ≠ 2) →
      (publicKeysLoop reg l).isOk = false := by
  intro l
  induction l with
  | nil =>
    rintro ⟨k, hk, _⟩
    exact absurd hk (List.not_mem_nil k)
  | cons k rest ih =>
    rintro ⟨k', hmem, kd', hkd', hne⟩
    rw [publicKeysLoop]
    split
    · rfl
    next kd hkd =>
      rcases List.mem_cons.mp hmem with heq | hm
      · subst heq
        rw [hkd] at hkd'
        have hne2 : kd.key_material_type ≠ 2 := by
          injection hkd' with e
          rw [e]
          exact hne
        have hpub : public_key_data reg kd =
            .error ("keyset::Handle: keyset contains a non-private key") := by
          unfold public_key_data
          rw [if_pos hne2]
        rw [hpub]
        rfl
      · split
        · rfl
        next pub_kd hpub =>
          split
          · rfl
          next pubs hloop =>
            have hr := ih ⟨k', hm, kd', hkd', hne⟩
            rw [hloop] at hr
            exact absurd hr (by simp [Except.isOk, Except.toBool])

/-- Shape of a successful `Handle::public` loop: keys correspond pairwise,
preserving id, status and prefix policy, with the output key data produced
by `public_key_data` from the input key data. -/
theorem publicKeysLoop_ok_shape {P : Type} (reg : Registry P) :
    ∀ l l' : List Key, publicKeysLoop reg l = .ok l' →
      List.Forall₂ (fun k k' : Key =>
        k'.key_id = k.key_id ∧ k'.status = k.status ∧
        k'.output_prefix_type = k.output_prefix_type ∧
        ∃ kd kd', k.key_data = some kd ∧ k'.key_data = some kd' ∧
          public_key_data reg kd = .ok kd') l l' := by
  intro l
  induction l with
  | nil =>
    intro l' hl'
    rw [publicKeysLoop] at hl'
    injection hl' with e
    subst e
    exact List.Forall₂.nil
  | cons k rest ih =>
    intro l' hl'
    rw [publicKeysLoop] at hl'
    split at hl'
    · exact absurd hl' (by simp)
    next kd hkd =>
      split at hl'
      · exact absurd hl' (by simp)
      next pub_kd hpub =>
        split at hl'
        · exact absurd hl' (by simp)
        next pubs hloop =>
          injection hl' with e
          subst e
          exact List.Forall₂.cons
            ⟨rfl, rfl, rfl, kd, pub_kd, hkd, rfl, hpub⟩ (ih pubs hloop)

/-- C7: public-key extraction.  `Handle::public` fails when any key has
absent key data or non-asymmetric-private material; on success the result
keeps the primary key id, the number of keys, and each key's id, status
and output-prefix policy. -/
theorem public_key_extraction {P : Type} (reg : Registry P) (h : Handle) :
    ((∃ k ∈ h.ks.key, k.key_data = none ∨
        ∃ kd, k.key_data = some kd ∧ kd.key_material_type ≠ 2) →
      (Handle.public reg h).isOk = false)
    ∧ (∀ h', Handle.public reg h = .ok h' →
        h'.ks.primary_key_id = h.ks.primary_key_id ∧
        h'.ks.key.length = h.ks.key.length ∧
        List.Forall₂ (fun k k' : Key =>
          k'.key_id = k.key_id ∧ k'.status = k.status ∧
          k'.output_prefix_type = k.output_prefix_type) h.ks.key h'.ks.key) := by
  constructor
  · rintro ⟨k, hmem, hbad⟩
    have hfail : (publicKeysLoop reg h.ks.key).isOk = false := by
      rcases hbad with hnone | ⟨kd, hkd, hne⟩
      · exact publicKeysLoop_err_of_absent reg _ ⟨k, hmem, hnone⟩
      · exact publicKeysLoop_err_of_nonprivate reg _ ⟨k, hmem, kd, hkd, hne⟩
    rw [Handle.public]
    cases hloop : publicKeysLoop reg h.ks.key with
    | error e => rfl
    | ok pubs =>
      rw [hloop] at hfail
      exact absurd hfail (by simp [Except.isOk, Except.toBool])
  · intro h' hh'
    rw [Handle.public] at hh'
    cases hloop : publicKeysLoop reg h.ks.key with
    | error e => rw [hloop] at hh'; exact absurd hh' (by simp)
    | ok pubs =>
      rw [hloop] at hh'
      injection hh' with e
      subst e
      have hshape := publicKeysLoop_ok_shape reg _ _ hloop
      refine ⟨rfl, ?_, ?_⟩
      · exact (List.Forall₂.length_eq hshape).symm
      · exact List.Forall₂.imp (fun a b hk => ⟨hk.1, hk.2.1, hk.2.2.1⟩) hshape

/-- A registry with one manager for url `"priv.url"` that extracts
asymmetric-public key data; used by the C7 witness and the C8
counterexample and witness. -/
def kmPub : KeyManager Unit :=
  { type_url := "priv.url",
    does_support := fun u => u = "priv.url",
    primitive := fun _ => .ok (),
    supports_private_keys := true,
    public_key_data := fun v =>
      .ok { type_url := "pub.url", value := v, key_material_type := 3 } }

/-- The registry holding exactly `kmPub`. -/
def regPub : Registry Unit :=
  fun u => if u = "priv.url" then some kmPub else none

/-- A handle with a single asymmetric-private key under `"priv.url"`. -/
def handlePriv : Handle :=
  { ks := { primary_key_id := 1,
            key := [{ key_data := some { type_url := "priv.url", value := [7],
                                         key_material_type := 2 },
                      status := 1, key_id := 1, output_prefix_type := 1 }] } }

/-- A handle containing a key with absent key data. -/
def handleAbsent : Handle :=
  { ks := { primary_key_id := 1,
            key := [{ key_data := none, status := 1, key_id := 1,
                      output_prefix_type := 1 }] } }

/-- C7 witness: extraction fails on a concrete handle whose only key has
no key data. -/
theorem public_key_extraction_witness :
    (Handle.public regPub handleAbsent).isOk = false :=
  (public_key_extraction regPub handleAbsent).1
    ⟨{ key_data := none, status := 1, key_id := 1, output_prefix_type := 1 },
     List.mem_cons_self _ _, Or.inl rfl⟩

/-- When every key has key data and `public_key_data` succeeds on it, the
`Handle::public` loop succeeds. -/
theorem publicKeysLoop_ok_of_all_ok {P : Type} (reg : Registry P) :
    ∀ l : List Key,
      (∀ k ∈ l, ∃ kd, k.key_data = some kd ∧
        ∃ pubkd, public_key_data reg kd = .ok pubkd) →
      (publicKeysLoop reg l).isOk = true := by
  intro l
  induction l with
  | nil => intro _; rfl
  | cons k rest ih =>
    intro hall
    obtain ⟨kd, hkd, pubkd, hpub⟩ := hall k (List.mem_cons_self k rest)
    rw [publicKeysLoop]
    split
    · next h0 => rw [h0] at hkd; exact absurd hkd (by simp)
    next kd2 hkd2 =>
      rw [hkd2] at hkd
      injection hkd with e
      subst e
      split
      · next e' heq => rw [heq] at hpub; exact absurd hpub (by simp)
      next pubkd2 hpub2 =>
        split
        · next e' hloop =>
          have hr := ih (fun x hx => hall x (List.mem_cons_of_mem _ hx))
          rw [hloop] at hr
          exact absurd hr (by simp [Except.isOk, Except.toBool])
        next pubs hloop => rfl

/-- C8 amended: for a handle with at least one key, where every key holds
asymmetric-private key data whose manager extraction succeeds and returns
key data that is NOT asymmetric-private (the normal case: managers return
asymmetric-public material), `public()` succeeds, but applying `public()`
to the result FAILS, because `public_key_data` rejects the now non-private
material.  Public-key extraction is therefore not idempotent. -/
theorem public_not_idempotent {P : Type} (reg : Registry P) (h : Handle)
    (hne : h.ks.key ≠ [])
    (hok : ∀ k ∈ h.ks.key, ∃ kd, k.key_data = some kd ∧
      kd.key_material_type = 2 ∧
      ∃ pubkd, public_key_data reg kd = .ok pubkd ∧
        pubkd.key_material_type ≠ 2) :
    ∃ h', Handle.public reg h = .ok h' ∧ (Handle.public reg h').isOk = false := by
  have hloopok := publicKeysLoop_ok_of_all_ok reg h.ks.key (fun k hk => by
    obtain ⟨kd, hkd, _, pubkd, hpub, _⟩ := hok k hk
    exact ⟨kd, hkd, pubkd, hpub⟩)
  cases hloop : publicKeysLoop reg h.ks.key with
  | error e =>
    rw [hloop] at hloopok
    exact absurd hloopok (by simp [Except.isOk, Except.toBool])
  | ok pubs =>
    refine ⟨{ ks := { primary_key_id := h.ks.primary_key_id, key := pubs } }, ?_, ?_⟩
    · rw [Handle.public, hloop]
    · have hshape := publicKeysLoop_ok_shape reg _ _ hloop
      cases hks : h.ks.key with
      | nil => exact absurd hks hne
      | cons k0 krest =>
        rw [hks] at hshape
        rcases List.forall₂_cons_left_iff.mp hshape with ⟨b, u', hrel, hrest, rfl⟩
        obtain ⟨-, -, -, kd0, kd0', hkd0, hbkd, hpub0⟩ := hrel
        obtain ⟨kd1, hkd1, hm2, pubkd, hpub1, hne2⟩ :=
          hok k0 (by rw [hks]; exact List.mem_cons_self _ _)
        rw [hkd0] at hkd1
        have e1 : kd0 = kd1 := by injection hkd1
        subst e1
        rw [hpub0] at hpub1
        have e2 : kd0' = pubkd := by injection hpub1
        subst e2
        have hfail := publicKeysLoop_err_of_nonprivate reg (b :: u')
          ⟨b, List.mem_cons_self _ _, kd0', hbkd, hne2⟩
        rw [Handle.public]
        dsimp only
        cases hloop2 : publicKeysLoop reg (b :: u') with
        | error e => rfl
        | ok pubs2 =>
          rw [hloop2] at hfail
          exact absurd hfail (by simp [Except.isOk, Except.toBool])

/-- C8 counterexample: with the concrete registry whose manager returns
asymmetric-public key data (the honest behavior), `public()` on an
all-asymmetric-private handle succeeds once, but applying `public()` a
second time fails, so the claimed idempotence is false as stated. -/
theorem public_idempotence_counterexample :
    (Handle.public regPub handlePriv).isOk = true ∧
    ((Handle.public regPub handlePriv).bind (Handle.public regPub)).isOk
      = false := by
  constructor <;> rfl

/-- C8 witness: the amended theorem applied to the concrete registry and
all-private handle. -/
theorem public_not_idempotent_witness :
    ∃ h', Handle.public regPub handlePriv = .ok h' ∧
      (Handle.public regPub h').isOk = false :=
  public_not_idempotent regPub handlePriv (by decide)
    (fun k hk => by
      have hkk : k = { key_data := some { type_url := "priv.url", value := [7],
                                          key_material_type := 2 },
                       status := 1, key_id := 1, output_prefix_type := 1 } := by
        simpa [handlePriv] using hk
      subst hkk
      exact ⟨_, rfl, rfl,
             { type_url := "pub.url", value := [7], key_material_type := 3 },
             rfl, by decide⟩)


/-! ## Primitive sets and `Handle::primitives_with_key_manager` -/

/-- Monadic bind on `Except String`: the model of the Rust `?` operator
applied to an intermediate result. -/
def eb {α β : Type} : Except String α → (α → Except String β) → Except String β
  | .error e, _ => .error e
  | .ok v, f => f v

/-- `eb` on a success applies the continuation. -/
theorem eb_ok {α β : Type} (v : α) (f : α → Except String β) :
    eb (.ok v) f = f v := rfl

/-- `eb` on an error propagates it. -/
theorem eb_err {α β : Type} (e : String) (f : α → Except String β) :
    eb (.error e) f = .error e := rfl

/-- `Option::ok_or_else`: require a present value, with an error message
otherwise. -/
def ok_or {α : Type} : Option α → String → Except String α
  | none, e => .error e
  | some v, _ => .ok v

/-- A `primitiveset::Entry`: the live primitive with its key id, status,
output-prefix bytes and type URL. -/
structure Entry (P : Type) where
  key_id : Nat
  primitive : P
  prefix_bytes : List Nat
  status : Int
  type_url : String

/-- `primitiveset::PrimitiveSet`: the entries in insertion order plus the
distinguished primary entry. -/
structure PrimitiveSet (P : Type) where
  entries : List (Entry P)
  primary : Option (Entry P)

/-- `PrimitiveSet::new`: empty set, no primary. -/
def PrimitiveSet.new {P : Type} : PrimitiveSet P :=
  { entries := [], primary := none }

/-- Modelled from the spec: the output-prefix bytes (§3) for a key; the
prefix-computation code is not under src/.  Tink is `0x01` followed by the
big-endian key id, Legacy and Crunchy are `0x00` followed by the big-endian
key id, Raw is empty, and unknown policies fail.  Proto numbering:
`UNKNOWN_PREFIX = 0`, `TINK = 1`, `LEGACY = 2`, `RAW = 3`, `CRUNCHY = 4`. -/
def output_prefix_bytes (k : Key) : Except String (List Nat) :=
  if k.output_prefix_type = 1 then .ok (1 :: be32 k.key_id)
  else if k.output_prefix_type = 2 then .ok (0 :: be32 k.key_id)
  else if k.output_prefix_type = 4 then .ok (0 :: be32 k.key_id)
  else if k.output_prefix_type = 3 then .ok []
  else .error ("unknown output prefix type")

/-- Modelled from the spec: `PrimitiveSet::add` is not under src/;
per §4.3 it computes the key's output-prefix bytes and appends an entry
holding the primitive, key id, status, prefix bytes and the key data's
type URL, returning the updated set together with the new entry. -/
def PrimitiveSet.add {P : Type} (ps : PrimitiveSet P) (prim : P) (key : Key)
    (url : String) : Except String (PrimitiveSet P × Entry P) :=
  eb (output_prefix_bytes key) fun pfx =>
    .ok ({ ps with entries := ps.entries ++
             [{ key_id := key.key_id, primitive := prim, prefix_bytes := pfx,
                status := key.status, type_url := url }] },
         { key_id := key.key_id, primitive := prim, prefix_bytes := pfx,
           status := key.status, type_url := url })

/-- Modelled from the spec: `keyset::validate` is not under src/; §3 keyset
invariants: the primary key id refers to an existing Enabled key, and all
key ids are unique and non-zero. -/
def validateKeyset (ks : Keyset) : Except String Unit :=
  if ¬ ks.key.any (fun k => k.key_id == ks.primary_key_id &&
      k.status == enabledStatus) then
    .error ("keyset: no enabled primary key")
  else if ¬ (ks.key.map Key.key_id).Nodup then
    .error ("keyset: duplicate key id")
  else if ks.key.any (fun k => k.key_id == 0) then
    .error ("keyset: zero key id")
  else
    .ok ()

/-- The manager-selection rule of `primitives_with_key_manager`
(handle.rs lines 158-161): the optional override manager is used exactly
when it claims the type URL via `does_support`; otherwise the registry. -/
def chooseManagerPrimitive {P : Type} (reg : Registry P)
    (km : Option (KeyManager P)) (kd : KeyData) : Except String P :=
  match km with
  | some kmgr =>
    if kmgr.does_support kd.type_url then kmgr.primitive kd.value
    else primitive_from_key_data reg kd
  | none => primitive_from_key_data reg kd

/-- The key loop of `Handle::primitives_with_key_manager` (lines 150-175):
skip keys whose status is not Enabled, require key data, materialize the
primitive, append to the set, and mark the new entry as primary when the
key's id equals the keyset's primary key id. -/
def pwkmLoop {P : Type} (reg : Registry P) (km : Option (KeyManager P))
    (pid : Nat) : List Key → PrimitiveSet P → Except String (PrimitiveSet P)
  | [], ps => .ok ps
  | key :: rest, ps =>
    if key.status ≠ enabledStatus then
      pwkmLoop reg km pid rest ps
    else
      eb (ok_or key.key_data ("primitives_with_key_manager: no key_data"))
        fun key_data =>
      eb (chooseManagerPrimitive reg km key_data) fun prim =>
      eb (ps.add prim key key_data.type_url) fun pse =>
      if key.key_id = pid then
        pwkmLoop reg km pid rest { pse.1 with primary := some pse.2 }
      else
        pwkmLoop reg km pid rest pse.1

/-- `Handle::primitives_with_key_manager` (lines 143-177): validate, then
run the key loop starting from the empty primitive set. -/
def Handle.primitives_with_key_manager {P : Type} (reg : Registry P)
    (h : Handle) (km : Option (KeyManager P)) :
    Except String (PrimitiveSet P) :=
  eb (validateKeyset h.ks) fun _ =>
    pwkmLoop reg km h.ks.primary_key_id h.ks.key PrimitiveSet.new

/-- Spec-level entry construction over the already-filtered enabled keys:
materialize each primitive with the selection rule and build the entries
in key order. -/
def entriesOf {P : Type} (reg : Registry P) (km : Option (KeyManager P)) :
    List Key → Except String (List (Entry P))
  | [] => .ok []
  | key :: rest =>
    eb (ok_or key.key_data ("primitives_with_key_manager: no key_data"))
      fun key_data =>
    eb (chooseManagerPrimitive reg km key_data) fun prim =>
    eb (output_prefix_bytes key) fun pfx =>
    eb (entriesOf reg km rest) fun es =>
    .ok ({ key_id := key.key_id, primitive := prim, prefix_bytes := pfx,
           status := key.status, type_url := key_data.type_url } :: es)

/-- `primitives_with_key_manager` as the spec words it: keep the keys with
status Enabled in order, materialize every one of them, and mark as primary
the entry whose key id equals the keyset's primary key id. -/
def primitivesSpec {P : Type} (reg : Registry P) (km : Option (KeyManager P))
    (ks : Keyset) : Except String (PrimitiveSet P) :=
  eb (entriesOf reg km (ks.key.filter (fun k => k.status == enabledStatus)))
    fun es =>
  .ok { entries := es,
        primary := es.find? (fun e => e.key_id == ks.primary_key_id) }

/-- Evolution of the loop's primary field over a list of appended entries:
each entry whose key id equals the primary key id overwrites the field. -/
def updatedPrimary {P : Type} (pid : Nat) :
    Option (Entry P) → List (Entry P) → Option (Entry P)
  | p0, [] => p0
  | p0, e :: es => updatedPrimary pid (if e.key_id == pid then some e else p0) es

/-- If no appended entry matches the primary key id, the primary field is
unchanged. -/
theorem updatedPrimary_no_match {P : Type} (pid : Nat) :
    ∀ (es : List (Entry P)) (p0 : Option (Entry P)),
      (∀ e ∈ es, (e.key_id == pid) = false) → updatedPrimary pid p0 es = p0 := by
  intro es
  induction es with
  | nil => intro p0 _; rfl
  | cons e es ih =>
    intro p0 hall
    rw [updatedPrimary, hall e (List.mem_cons_self e es)]
    simp only [Bool.false_eq_true, if_false]
    exact ih p0 (fun x hx => hall x (List.mem_cons_of_mem _ hx))

/-- Under unique entry key ids, the loop's last-match primary equals the
first match, i.e. `find?`. -/
theorem updatedPrimary_eq_find {P : Type} (pid : Nat) :
    ∀ es : List (Entry P), (es.map Entry.key_id).Nodup →
      updatedPrimary pid none es = es.find? (fun e => e.key_id == pid) := by
  intro es
  induction es with
  | nil => intro _; rfl
  | cons e es ih =>
    intro hnd
    rw [List.map_cons, List.nodup_cons] at hnd
    rw [updatedPrimary]
    cases hm : (e.key_id == pid) with
    | true =>
      have hpid : e.key_id = pid := by simpa using hm
      have hnone : ∀ x ∈ es, (x.key_id == pid) = false := by
        intro x hx
        cases hx2 : (x.key_id == pid) with
        | false => rfl
        | true =>
          have hxe : x.key_id = pid := by simpa using hx2
          have : e.key_id ∈ es.map Entry.key_id := by
            rw [hpid, ← hxe]
            exact List.mem_map_of_mem Entry.key_id hx
          exact absurd this hnd.1
      rw [if_pos rfl, updatedPrimary_no_match pid es (some e) hnone]
      exact (List.find?_cons_of_pos es hm).symm
    | false =>
      simp only [Bool.false_eq_true, if_false]
      rw [ih hnd.2]
      exact (List.find?_cons_of_neg es (by simp [hm])).symm

/-- Entry key ids of a successful spec-level construction match the source
keys' ids in order. -/
theorem entriesOf_ids {P : Type} (reg : Registry P) (km : Option (KeyManager P)) :
    ∀ (l : List Key) (es : List (Entry P)), entriesOf reg km l = .ok es →
      es.map Entry.key_id = l.map Key.key_id := by
  intro l
  induction l with
  | nil =>
    intro es hes
    rw [entriesOf] at hes
    injection hes with e
    subst e
    rfl
  | cons key rest ih =>
    intro es hes
    rw [entriesOf] at hes
    cases hkd : key.key_data with
    | none => rw [hkd] at hes; exact absurd hes (by simp [ok_or, eb_err])
    | some kd =>
      rw [hkd] at hes
      simp only [ok_or, eb_ok] at hes
      cases hcm : chooseManagerPrimitive reg km kd with
      | error e => rw [hcm] at hes; exact absurd hes (by simp [eb_err])
      | ok prim =>
        rw [hcm, eb_ok] at hes
        cases hpfx : output_prefix_bytes key with
        | error e => rw [hpfx] at hes; exact absurd hes (by simp [eb_err])
        | ok pfx =>
          rw [hpfx, eb_ok] at hes
          cases hrec : entriesOf reg km rest with
          | error e => rw [hrec] at hes; exact absurd hes (by simp [eb_err])
          | ok es2 =>
            rw [hrec, eb_ok] at hes
            injection hes with e
            subst e
            rw [List.map_cons, List.map_cons, ih es2 hrec]

/-- The materialization loop equals the spec-level pipeline over the
enabled keys, for any starting accumulator. -/
theorem pwkmLoop_eq_entriesOf {P : Type} (reg : Registry P)
    (km : Option (KeyManager P)) (pid : Nat) :
    ∀ (l : List Key) (ps : PrimitiveSet P),
      pwkmLoop reg km pid l ps =
        eb (entriesOf reg km (l.filter (fun k => k.status == enabledStatus)))
          fun es =>
          .ok { entries := ps.entries ++ es,
                primary := updatedPrimary pid ps.primary es } := by
  intro l
  induction l with
  | nil =>
    intro ps
    rw [pwkmLoop, List.filter_nil, entriesOf, eb_ok, updatedPrimary]
    simp
  | cons key rest ih =>
    intro ps
    rw [pwkmLoop, List.filter_cons]
    by_cases hst : key.status = enabledStatus
    · have hf : (key.status == enabledStatus) = true := by simpa using hst
      rw [if_neg (not_not_intro hst), hf, if_pos rfl, entriesOf]
      cases hkd : key.key_data with
      | none => simp only [ok_or, eb_err]
      | some kd =>
        simp only [ok_or, eb_ok]
        cases hcm : chooseManagerPrimitive reg km kd with
        | error e => simp only [eb_err]
        | ok prim =>
          simp only [eb_ok, PrimitiveSet.add]
          cases hpfx : output_prefix_bytes key with
          | error e => simp only [eb_err]
          | ok pfx =>
            simp only [eb_ok]
            cases hrec : entriesOf reg km
                (rest.filter (fun k => k.status == enabledStatus)) with
            | error e =>
              simp only [ih, hrec, eb_err, ite_self]
            | ok es =>
              simp only [ih, hrec, eb_ok, updatedPrimary]
              by_cases hid : key.key_id = pid
              · simp [hid, List.append_assoc]
              · have hb : (key.key_id == pid) = false := by simpa using hid
                simp [hid, hb, List.append_assoc]
    · have hf : (key.status == enabledStatus) = false := by simpa using hst
      rw [if_pos hst, hf, if_neg (by simp)]
      exact ih ps

/-- A successfully validated keyset has an enabled primary and unique key
ids. -/
theorem validateKeyset_ok_facts (ks : Keyset) (hval : validateKeyset ks = .ok ()) :
    ks.key.any (fun k => k.key_id == ks.primary_key_id &&
      k.status == enabledStatus) = true
    ∧ (ks.key.map Key.key_id).Nodup := by
  rw [validateKeyset] at hval
  split at hval
  · exact absurd hval (by simp)
  next h1 =>
    split at hval
    · exact absurd hval (by simp)
    next h2 =>
      split at hval
      · exact absurd hval (by simp)
      next h3 => exact ⟨not_not.mp h1, not_not.mp h2⟩

/-- If some enabled key has no key data or no obtainable primitive, the
materialization loop fails. -/
theorem pwkmLoop_err_of_bad_key {P : Type} (reg : Registry P)
    (km : Option (KeyManager P)) (pid : Nat) :
    ∀ (l : List Key) (ps : PrimitiveSet P),
      (∃ k ∈ l, k.status = enabledStatus ∧
        ∀ kd, k.key_data = some kd →
          (chooseManagerPrimitive reg km kd).isOk = false) →
      (pwkmLoop reg km pid l ps).isOk = false := by
  intro l
  induction l with
  | nil =>
    rintro ps ⟨k, hk, _⟩
    exact absurd hk (List.not_mem_nil k)
  | cons key rest ih =>
    rintro ps ⟨k, hmem, hen, hbad⟩
    rw [pwkmLoop]
    by_cases hst : key.status = enabledStatus
    · rw [if_neg (not_not_intro hst)]
      cases hkd : key.key_data with
      | none => rfl
      | some kd =>
        simp only [ok_or, eb_ok]
        rcases List.mem_cons.mp hmem with heq | hm
        · subst heq
          have hko := hbad kd hkd
          cases hcm : chooseManagerPrimitive reg km kd with
          | error e => rfl
          | ok prim =>
            rw [hcm] at hko
            exact absurd hko (by simp [Except.isOk, Except.toBool])
        · cases hcm : chooseManagerPrimitive reg km kd with
          | error e => rfl
          | ok prim =>
            simp only [eb_ok, PrimitiveSet.add]
            cases hpfx : output_prefix_bytes key with
            | error e => rfl
            | ok pfx =>
              simp only [eb_ok]
              by_cases hid : key.key_id = pid
              · rw [if_pos hid]
                exact ih _ ⟨k, hm, hen, hbad⟩
              · rw [if_neg hid]
                exact ih _ ⟨k, hm, hen, hbad⟩
    · rw [if_pos hst]
      rcases List.mem_cons.mp hmem with heq | hm
      · subst heq
        exact absurd hen hst
      · exact ih ps ⟨k, hm, hen, hbad⟩

/-- C6: primitive materialization.  On a valid keyset,
`primitives_with_key_manager` equals the spec-level pipeline: enabled keys
in order, the override manager used exactly for type URLs it supports, the
entry with the primary key's id marked primary.  It fails when no enabled
primary exists, and when some enabled key yields no primitive. -/
theorem primitives_materialization {P : Type} (reg : Registry P) (h : Handle)
    (km : Option (KeyManager P)) :
    (validateKeyset h.ks = .ok () →
      Handle.primitives_with_key_manager reg h km = primitivesSpec reg km h.ks)
    ∧ ((¬ ∃ k ∈ h.ks.key, k.key_id = h.ks.primary_key_id ∧
          k.status = enabledStatus) →
      (Handle.primitives_with_key_manager reg h km).isOk = false)
    ∧ (∀ k ∈ h.ks.key, k.status = enabledStatus →
      (∀ kd, k.key_data = some kd →
        (chooseManagerPrimitive reg km kd).isOk = false) →
      (Handle.primitives_with_key_manager reg h km).isOk = false) := by
  refine ⟨?_, ?_, ?_⟩
  · intro hval
    rw [Handle.primitives_with_key_manager, hval, eb_ok,
        pwkmLoop_eq_entriesOf, primitivesSpec]
    cases hrec : entriesOf reg km
        (h.ks.key.filter (fun k => k.status == enabledStatus)) with
    | error e => rfl
    | ok es =>
      rw [eb_ok, eb_ok]
      have hnd : (es.map Entry.key_id).Nodup := by
        rw [entriesOf_ids reg km _ es hrec]
        exact ((validateKeyset_ok_facts h.ks hval).2).sublist
          ((List.filter_sublist _).map Key.key_id)
      simp only [PrimitiveSet.new]
      rw [updatedPrimary_eq_find _ es hnd]
      simp
  · intro hnp
    have hany : ¬ (h.ks.key.any (fun k => k.key_id == h.ks.primary_key_id &&
        k.status == enabledStatus) = true) := by
      intro hc
      rcases List.any_eq_true.mp hc with ⟨k, hk, hkp⟩
      rw [Bool.and_eq_true] at hkp
      exact hnp ⟨k, hk, by simpa using hkp.1, by simpa using hkp.2⟩
    rw [Handle.primitives_with_key_manager, validateKeyset, if_pos hany]
    rfl
  · intro k hk hen hbad
    rw [Handle.primitives_with_key_manager]
    cases hval : validateKeyset h.ks with
    | error e => rfl
    | ok u =>
      cases u
      rw [eb_ok]
      exact pwkmLoop_err_of_bad_key reg km _ _ _ ⟨k, hk, hen, hbad⟩

/-- C6 witness: the materialization equality applied to the concrete valid
single-key keyset and registry, with no override manager. -/
theorem primitives_materialization_witness :
    Handle.primitives_with_key_manager regPub handlePriv
      (none : Option (KeyManager Unit)) =
    primitivesSpec regPub (none : Option (KeyManager Unit)) handlePriv.ks :=
  (primitives_materialization regPub handlePriv none).1 rfl

/-! ## Streaming AEAD: `AesGcmHkdf` (streaming/src/subtle/aes_gcm_hkdf.rs) -/

/-- `HashType` from the proto; only threaded through to HKDF. -/
inductive HashType where
  | UnknownHash
  | Sha1
  | Sha384
  | Sha256
  | Sha512
deriving DecidableEq, Repr

/-- `AES_GCM_HKDF_NONCE_SIZE_IN_BYTES` (line 25). -/
def AES_GCM_HKDF_NONCE_SIZE_IN_BYTES : Nat := 12

/-- `AES_GCM_HKDF_NONCE_PREFIX_SIZE_IN_BYTES` (line 28). -/
def AES_GCM_HKDF_NONCE_PREFIX_SIZE_IN_BYTES : Nat := 7

/-- `AES_GCM_HKDF_TAG_SIZE_IN_BYTES` (line 31). -/
def AES_GCM_HKDF_TAG_SIZE_IN_BYTES : Nat := 16

/-- `AesGcmHkdf` (lines 39-46). -/
structure AesGcmHkdf where
  main_key : List Nat
  hkdf_alg : HashType
  key_size_in_bytes : Nat
  ciphertext_segment_size : Nat
  first_ciphertext_segment_offset : Nat
  plaintext_segment_size : Nat
deriving DecidableEq, Repr

/-- Modelled from the spec: `subtle::validate_aes_key_size` is not under
src/; per §4.4 a valid derived key size is 16 or 32 bytes. -/
def validate_aes_key_size (n : Nat) : Except String Unit :=
  if n = 16 ∨ n = 32 then .ok () else .error ("invalid AES key size")

/-- `AesGcmHkdf::new` (lines 63-89). -/
def AesGcmHkdf.new (main_key : List Nat) (hkdf_alg : HashType)
    (key_size_in_bytes ciphertext_segment_size first_segment_offset : Nat) :
    Except String AesGcmHkdf :=
  if main_key.length < 16 ∨ main_key.length < key_size_in_bytes then
    .error ("main_key too short")
  else
    eb (validate_aes_key_size key_size_in_bytes) fun _ =>
    if ciphertext_segment_size ≤ first_segment_offset +
        (1 + key_size_in_bytes + AES_GCM_HKDF_NONCE_PREFIX_SIZE_IN_BYTES) +
        AES_GCM_HKDF_TAG_SIZE_IN_BYTES then
      .error ("ciphertext_segment_size too small")
    else
      .ok { main_key := main_key, hkdf_alg := hkdf_alg,
            key_size_in_bytes := key_size_in_bytes,
            ciphertext_segment_size := ciphertext_segment_size,
            first_ciphertext_segment_offset := first_segment_offset +
              (1 + key_size_in_bytes + AES_GCM_HKDF_NONCE_PREFIX_SIZE_IN_BYTES),
            plaintext_segment_size := ciphertext_segment_size -
              AES_GCM_HKDF_TAG_SIZE_IN_BYTES }

/-- `AesGcmHkdf::header_length` (lines 92-94). -/
def AesGcmHkdf.header_length (a : AesGcmHkdf) : Nat :=
  1 + a.key_size_in_bytes + AES_GCM_HKDF_NONCE_PREFIX_SIZE_IN_BYTES

/-- `compute_hkdf` is an external collaborator: a total function from
(hash, ikm, salt, info, output length) to the derived key bytes. -/
def HkdfFn : Type := HashType → List Nat → List Nat → List Nat → Nat → List Nat

/-- `AesGcmHkdf::derive_key` (lines 97-106). -/
def AesGcmHkdf.derive_key (a : AesGcmHkdf) (hkdf : HkdfFn)
    (salt aad : List Nat) : List Nat :=
  hkdf a.hkdf_alg a.main_key salt aad a.key_size_in_bytes

/-- The AES-GCM engine is an external collaborator: per-segment encryption
and decryption, taking the derived key and the 12-byte nonce. -/
structure GcmModel where
  enc : List Nat → List Nat → List Nat → List Nat
  dec : List Nat → List Nat → List Nat → Option (List Nat)

/-- The key-size dispatch of `new_cipher_key` (lines 187-197): only 16- and
32-byte derived keys are accepted. -/
def new_cipher_key_check (key : List Nat) : Except String Unit :=
  if key.length = 16 then .ok ()
  else if key.length = 32 then .ok ()
  else .error ("AesGcmHmac: invalid AES key size")

/-- Modelled from the spec: the per-segment nonce (§4.4): the 7-byte nonce
prefix, the 4-byte big-endian segment counter, and one last-flag byte
(0x01 exactly for the terminal segment). -/
def segmentNonce (npfx : List Nat) (ctr : Nat) (last : Bool) : List Nat :=
  npfx ++ be32 ctr ++ [if last then 1 else 0]

/-- Split a byte list into chunks of size `sz`, the final chunk possibly
shorter (fuel-based so that the kernel can evaluate it; the fuel
`p.length` always suffices when `0 < sz`). -/
def chunksAux (sz : Nat) : Nat → List Nat → List (List Nat)
  | 0, p => [p]
  | fuel + 1, p =>
    if p.length ≤ sz then [p] else p.take sz :: chunksAux sz fuel (p.drop sz)

/-- Chunking with sufficient fuel. -/
def chunks (sz : Nat) (p : List Nat) : List (List Nat) :=
  chunksAux sz p.length p

/-- Modelled from the spec: the writer's plaintext segmentation (§4.4): the
first segment holds up to `plaintext_segment_size −
first_ciphertext_segment_offset` bytes (`f`), later segments hold
`plaintext_segment_size` (`sz`) bytes; a plaintext fitting in the first
segment yields exactly one (possibly empty) segment. -/
def segmentsOf (f sz : Nat) (p : List Nat) : List (List Nat) :=
  if p.length ≤ f then [p] else p.take f :: chunks sz (p.drop f)

/-- Modelled from the spec: the writer's per-segment encryption (§4.4):
counters increase from `ctr`, the terminal segment is flagged last. -/
def encryptSegs (G : GcmModel) (dkey npfx : List Nat) :
    Nat → List (List Nat) → List (List Nat)
  | _, [] => []
  | ctr, s :: rest =>
    G.enc dkey (segmentNonce npfx ctr rest.isEmpty) s ::
      encryptSegs G dkey npfx (ctr + 1) rest

/-- Modelled from the spec: the reader's per-segment decryption (§4.4):
the chunk that exhausts the input is decrypted under last-flag 1; a tag
failure aborts the stream. -/
def decryptSegs (G : GcmModel) (dkey npfx : List Nat) :
    Nat → List (List Nat) → Except String (List Nat)
  | _, [] => .ok []
  | ctr, c :: rest =>
    match G.dec dkey (segmentNonce npfx ctr rest.isEmpty) c with
    | none => .error ("AesGcmHkdf: decryption failed")
    | some s =>
      eb (decryptSegs G dkey npfx (ctr + 1) rest) fun srest => .ok (s ++ srest)

/-- Modelled from the spec: the reader's ciphertext chunking (§4.4): the
first ciphertext segment after the header holds `ciphertext_segment_size −
first_ciphertext_segment_offset` bytes (`c0`), later segments hold
`ciphertext_segment_size` (`cs`); the final chunk is whatever remains. -/
def ctChunks (c0 cs : Nat) (body : List Nat) : List (List Nat) :=
  if body.length ≤ c0 then [body] else body.take c0 :: chunks cs (body.drop c0)

/-- `AesGcmHkdf::new_encrypting_writer` (lines 114-145) composed with
writing a whole plaintext and closing; the noncebased writer is not under
src/ and is modelled from §4.4.  `salt` and `npfx` stand for the random
salt and nonce prefix the source draws; the byte sink is ideal.  The
result is the complete stream the sink received: the header (one length
byte, the salt, the nonce prefix) followed by the encrypted segments. -/
def encryptStream (G : GcmModel) (hkdf : HkdfFn) (a : AesGcmHkdf)
    (salt npfx aad p : List Nat) : Except String (List Nat) :=
  eb (new_cipher_key_check (a.derive_key hkdf salt aad)) fun _ =>
  if 255 < a.header_length then .error ("header length too long")
  else if 4294967296 ≤ (segmentsOf
      (a.plaintext_segment_size - a.first_ciphertext_segment_offset)
      a.plaintext_segment_size p).length then
    .error ("stream: segment counter overflow")
  else
    .ok ((a.header_length :: salt ++ npfx) ++
      (encryptSegs G (a.derive_key hkdf salt aad) npfx 0
        (segmentsOf (a.plaintext_segment_size - a.first_ciphertext_segment_offset)
          a.plaintext_segment_size p)).flatten)

/-- `AesGcmHkdf::new_decrypting_reader` (lines 150-183) composed with
reading the whole stream; the noncebased reader is not under src/ and is
modelled from §4.4.  Consumes the header (checking the length byte against
`header_length`, then reading the salt and nonce prefix), derives the
stream key and decrypts the ciphertext segments in order. -/
def decryptStream (G : GcmModel) (hkdf : HkdfFn) (a : AesGcmHkdf)
    (aad stream : List Nat) : Except String (List Nat) :=
  match stream with
  | [] => .error ("failed to read header len")
  | h0 :: rest =>
    if h0 ≠ a.header_length then .error ("invalid header length")
    else if rest.length < a.key_size_in_bytes then
      .error ("cannot read salt")
    else if (rest.drop a.key_size_in_bytes).length <
        AES_GCM_HKDF_NONCE_PREFIX_SIZE_IN_BYTES then
      .error ("cannot read nonce_prefix")
    else
      eb (new_cipher_key_check
          (a.derive_key hkdf (rest.take a.key_size_in_bytes) aad)) fun _ =>
      decryptSegs G (a.derive_key hkdf (rest.take a.key_size_in_bytes) aad)
        ((rest.drop a.key_size_in_bytes).take
          AES_GCM_HKDF_NONCE_PREFIX_SIZE_IN_BYTES) 0
        (ctChunks (a.ciphertext_segment_size - a.first_ciphertext_segment_offset)
          a.ciphertext_segment_size
          ((rest.drop a.key_size_in_bytes).drop
            AES_GCM_HKDF_NONCE_PREFIX_SIZE_IN_BYTES))

/-- A successful `AesGcmHkdf::new` pins down every field and implies all
three acceptance conditions. -/
theorem AesGcmHkdf.new_ok_fields (mk : List Nat) (alg : HashType)
    (ks cs fso : Nat) (a : AesGcmHkdf)
    (h : AesGcmHkdf.new mk alg ks cs fso = .ok a) :
    a = { main_key := mk, hkdf_alg := alg, key_size_in_bytes := ks,
          ciphertext_segment_size := cs,
          first_ciphertext_segment_offset := fso + (1 + ks + 7),
          plaintext_segment_size := cs - 16 }
    ∧ (ks = 16 ∨ ks = 32) ∧ 16 ≤ mk.length ∧ ks ≤ mk.length
    ∧ fso + (1 + ks + 7) + 16 < cs := by
  rw [AesGcmHkdf.new] at h
  split at h
  · exact absurd h (by simp)
  next hmain =>
    rw [validate_aes_key_size] at h
    split at h
    next hks =>
      rw [eb_ok] at h
      split at h
      · exact absurd h (by simp)
      next hcs =>
        simp only [AES_GCM_HKDF_NONCE_PREFIX_SIZE_IN_BYTES,
          AES_GCM_HKDF_TAG_SIZE_IN_BYTES] at hcs h
        injection h with e
        exact ⟨e.symm, hks, by omega, by omega, by omega⟩
    next hks =>
      rw [eb_err] at h
      exact absurd h (by simp)

/-- C4: `AesGcmHkdf::new` succeeds exactly when the main key is at least 16
bytes and at least `key_size_in_bytes` bytes, the key size is a valid AES
key size (16 or 32), and the ciphertext segment size exceeds
`first_segment_offset + (1 + key_size + 7) + 16`; on success the derived
fields and `header_length` are as specified. -/
theorem aesGcmHkdf_new_spec (mk : List Nat) (alg : HashType) (ks cs fso : Nat) :
    ((AesGcmHkdf.new mk alg ks cs fso).isOk = true ↔
      (16 ≤ mk.length ∧ ks ≤ mk.length ∧ (ks = 16 ∨ ks = 32) ∧
        fso + (1 + ks + 7) + 16 < cs))
    ∧ (∀ a, AesGcmHkdf.new mk alg ks cs fso = .ok a →
        a.plaintext_segment_size = cs - 16 ∧
        a.first_ciphertext_segment_offset = fso + (1 + ks + 7) ∧
        a.header_length = 1 + ks + 7) := by
  constructor
  · constructor
    · intro hok
      cases hn : AesGcmHkdf.new mk alg ks cs fso with
      | error e =>
        rw [hn] at hok
        exact absurd hok (by simp [Except.isOk, Except.toBool])
      | ok a =>
        obtain ⟨-, h2, h3, h4, h5⟩ := AesGcmHkdf.new_ok_fields mk alg ks cs fso a hn
        exact ⟨h3, h4, h2, h5⟩
    · rintro ⟨h1, h2, h3, h4⟩
      rw [AesGcmHkdf.new, if_neg (by omega), validate_aes_key_size, if_pos h3,
          eb_ok, if_neg (by
            simp only [AES_GCM_HKDF_NONCE_PREFIX_SIZE_IN_BYTES,
              AES_GCM_HKDF_TAG_SIZE_IN_BYTES]
            omega)]
      rfl
  · intro a ha
    obtain ⟨he, -, -, -, -⟩ := AesGcmHkdf.new_ok_fields mk alg ks cs fso a ha
    subst he
    exact ⟨rfl, rfl, rfl⟩

/-- C4 witness: the acceptance characterization and field equations at a
concrete parameter set. -/
theorem aesGcmHkdf_new_spec_witness :
    (AesGcmHkdf.new (List.replicate 32 0) HashType.Sha256 32 100 0).isOk = true :=
  (aesGcmHkdf_new_spec (List.replicate 32 0) HashType.Sha256 32 100 0).1.mpr
    (by simp)

/-- C3: stream header format.  A stream written by the encrypting writer
starts with one byte equal to `1 + key_size + 7` followed by the
`key_size` salt bytes and the 7 nonce-prefix bytes; and the decrypting
reader fails on every input whose first byte differs from
`1 + key_size + 7` (in particular on the off-by-one value
`key_size + 7`). -/
theorem stream_header_format (G : GcmModel) (hkdf : HkdfFn)
    (mk : List Nat) (alg : HashType) (ks cs fso : Nat) (a : AesGcmHkdf)
    (hnew : AesGcmHkdf.new mk alg ks cs fso = .ok a)
    (salt npfx aad p : List Nat)
    (hsalt : salt.length = ks) (hnp : npfx.length = 7) :
    (∀ out, encryptStream G hkdf a salt npfx aad p = .ok out →
      out.take (1 + ks + 7) = (1 + ks + 7) :: (salt ++ npfx))
    ∧ (∀ b rest, b ≠ 1 + ks + 7 →
      (decryptStream G hkdf a aad (b :: rest)).isOk = false) := by
  obtain ⟨he, -, -, -, -⟩ := AesGcmHkdf.new_ok_fields mk alg ks cs fso a hnew
  have hhl : a.header_length = 1 + ks + 7 := by
    rw [he]
    rfl
  constructor
  · intro out hout
    rw [encryptStream] at hout
    cases hchk : new_cipher_key_check (a.derive_key hkdf salt aad) with
    | error e =>
      rw [hchk, eb_err] at hout
      exact absurd hout (by simp)
    | ok u =>
      cases u
      rw [hchk, eb_ok] at hout
      split at hout
      · exact absurd hout (by simp)
      next h255 =>
        split at hout
        · exact absurd hout (by simp)
        next hov =>
          injection hout with e
          subst e
          rw [hhl]
          simp only [List.cons_append, List.append_assoc]
          have h1 : (1 + ks + 7) = (ks + 7) + 1 := by omega
          rw [h1, List.take_succ_cons]
          have h2 : ks + 7 = salt.length + 7 := by rw [hsalt]
          rw [h2, List.take_append]
          have h3 : (7 : Nat) = npfx.length := hnp.symm
          rw [h3, List.take_left]
  · intro b rest hb
    rw [decryptStream, hhl, if_pos hb]
    rfl

/-- A concrete GCM engine for witnesses: the ciphertext is the plaintext
followed by a 16-byte zero tag. -/
def trivGcm : GcmModel :=
  { enc := fun _ _ s => s ++ List.replicate 16 0,
    dec := fun _ _ c =>
      if c.length < 16 then none else some (c.take (c.length - 16)) }

/-- A concrete HKDF for witnesses: all-zero output of the requested
length. -/
def trivHkdf : HkdfFn := fun _ _ _ _ n => List.replicate n 0

/-- The streaming primitive produced by `AesGcmHkdf::new` at the witness
parameters (32-byte key, segment size 100, offset 0). -/
def aWit : AesGcmHkdf :=
  { main_key := List.replicate 32 0, hkdf_alg := HashType.Sha256,
    key_size_in_bytes := 32, ciphertext_segment_size := 100,
    first_ciphertext_segment_offset := 40, plaintext_segment_size := 84 }

/-- C3 witness: the reader rejects the off-by-one header-length byte
`key_size + 7 = 39` for the concrete 32-byte-key primitive. -/
theorem stream_header_format_witness :
    (decryptStream trivGcm trivHkdf aWit [] (39 :: [])).isOk = false :=
  (stream_header_format trivGcm trivHkdf (List.replicate 32 0) HashType.Sha256
      32 100 0 aWit rfl (List.replicate 32 1) (List.replicate 7 2) [] []
      (by simp) (by simp)).2 39 [] (by decide)

/-! ## C10: short writes of the stream header -/

/-- A byte sink: consumes bytes and reports how many, or fails with an IO
error; the model of the `std::io::Write` trait object handed to
`new_encrypting_writer`. -/
def SinkFn : Type := List Nat → Except String Nat

/-- The header-write step of `new_encrypting_writer` (line 133): the source
calls `w.write(&header)` and IGNORES the returned byte count, propagating
only `Err`.  The model returns the ignored count for observation. -/
def writeHeaderStep (w : SinkFn) (header : List Nat) : Except String Nat :=
  eb (w header) fun n => .ok n

/-- `new_encrypting_writer` (lines 114-145) up to and including the header
write, against a real sink: derive and check the stream key, build the
header, call `w.write(&header)`.  Success means the writer construction
proceeds. -/
def newEncryptingWriterHeader (hkdf : HkdfFn) (a : AesGcmHkdf)
    (w : SinkFn) (salt npfx aad : List Nat) : Except String Nat :=
  eb (new_cipher_key_check (a.derive_key hkdf salt aad)) fun _ =>
  if 255 < a.header_length then .error ("header length too long")
  else writeHeaderStep w (a.header_length :: salt ++ npfx)

/-- C10: the source does NOT fail on short header writes.  With a sink
that consumes 0 of the 40 header bytes and returns `Ok(0)`,
`new_encrypting_writer` succeeds — the count returned by
`w.write(&header)` on line 133 is discarded — instead of failing with an
IOError as the claim (and the spec's normative sentence) requires. -/
theorem short_header_write_accepted :
    newEncryptingWriterHeader trivHkdf aWit (fun _ => .ok 0)
      (List.replicate 32 1) (List.replicate 7 2) [] = .ok 0
    ∧ (aWit.header_length :: List.replicate 32 1 ++ List.replicate 7 2).length
      = 40 := by
  constructor <;> rfl

/-! ## C1: streaming round-trip -/

/-- Chunking is fuel-insensitive once the fuel covers the list. -/
theorem chunksAux_congr (sz : Nat) (hsz : 0 < sz) :
    ∀ (fuel fuel' : Nat) (q : List Nat), q.length ≤ fuel →
      q.length ≤ fuel' → chunksAux sz fuel q = chunksAux sz fuel' q := by
  intro fuel
  induction fuel with
  | zero =>
    intro fuel' q hq hq'
    have hq0 : q.length = 0 := Nat.le_zero.mp hq
    cases fuel' with
    | zero => rfl
    | succ f' =>
      rw [chunksAux, chunksAux, if_pos (by omega)]
  | succ f ih =>
    intro fuel' q hq hq'
    cases fuel' with
    | zero =>
      have hq0 : q.length = 0 := Nat.le_zero.mp hq'
      rw [chunksAux, chunksAux, if_pos (by omega)]
    | succ f' =>
      rw [chunksAux, chunksAux]
      by_cases hle : q.length ≤ sz
      · rw [if_pos hle, if_pos hle]
      · rw [if_neg hle, if_neg hle,
          ih f' (q.drop sz) (by rw [List.length_drop]; omega)
            (by rw [List.length_drop]; omega)]

/-- One unfolding step of `chunks`. -/
theorem chunks_step (sz : Nat) (hsz : 0 < sz) (q : List Nat) :
    chunks sz q = if q.length ≤ sz then [q]
      else q.take sz :: chunks sz (q.drop sz) := by
  rw [chunks]
  cases hq : q.length with
  | zero =>
    rw [chunksAux, if_pos (by omega)]
  | succ n =>
    rw [chunksAux, ← hq]
    by_cases hle : q.length ≤ sz
    · rw [if_pos hle, if_pos hle]
    · rw [if_neg hle, if_neg hle, chunks,
        chunksAux_congr sz hsz n (q.drop sz).length (q.drop sz)
          (by rw [List.length_drop]; omega) (Nat.le_refl _)]

/-- Chunks concatenate back to the original list. -/
theorem chunks_flatten (sz : Nat) (hsz : 0 < sz) :
    ∀ (n : Nat) (q : List Nat), q.length ≤ n → (chunks sz q).flatten = q := by
  intro n
  induction n with
  | zero =>
    intro q hq
    have hq0 : q = [] := List.eq_nil_of_length_eq_zero (Nat.le_zero.mp hq)
    subst hq0
    rfl
  | succ n ih =>
    intro q hq
    rw [chunks_step sz hsz]
    by_cases hle : q.length ≤ sz
    · rw [if_pos hle]
      simp
    · rw [if_neg hle, List.flatten_cons,
        ih (q.drop sz) (by rw [List.length_drop]; omega)]
      exact List.take_append_drop sz q

/-- The number of chunks is bounded by the length budget. -/
theorem chunks_length_le (sz : Nat) (hsz : 0 < sz) :
    ∀ (m : Nat) (q : List Nat), q.length ≤ m * sz →
      (chunks sz q).length ≤ m + 1 := by
  intro m
  induction m with
  | zero =>
    intro q hq
    have hq0 : q = [] := List.eq_nil_of_length_eq_zero (by omega)
    subst hq0
    simp [chunks, chunksAux]
  | succ m ih =>
    intro q hq
    have hq2 : q.length ≤ m * sz + sz := by
      rw [← Nat.succ_mul]
      exact hq
    rw [chunks_step sz hsz]
    by_cases hle : q.length ≤ sz
    · rw [if_pos hle]
      simp
    · rw [if_neg hle, List.length_cons]
      have := ih (q.drop sz) (by rw [List.length_drop]; omega)
      omega

/-- `chunks` always yields at least one chunk. -/
theorem chunks_ne_nil (sz : Nat) (q : List Nat) : chunks sz q ≠ [] := by
  rw [chunks]
  cases hq : q.length with
  | zero =>
    rw [chunksAux]
    simp
  | succ n =>
    rw [chunksAux]
    by_cases hle : q.length ≤ sz
    · rw [if_pos hle]
      simp
    · rw [if_neg hle]
      simp

/-- The writer's segments concatenate back to the plaintext. -/
theorem segmentsOf_flatten (f sz : Nat) (hsz : 0 < sz) (p : List Nat) :
    (segmentsOf f sz p).flatten = p := by
  rw [segmentsOf]
  by_cases hle : p.length ≤ f
  · rw [if_pos hle]
    simp
  · rw [if_neg hle, List.flatten_cons,
      chunks_flatten sz hsz (p.drop f).length _ (Nat.le_refl _)]
    exact List.take_append_drop f p

/-- Segment-level decryption inverts segment-level encryption: same key,
nonce prefix and starting counter, matching last flags. -/
theorem decryptSegs_encryptSegs (G : GcmModel) (dkey npfx : List Nat)
    (hGdec : ∀ k n s, G.dec k n (G.enc k n s) = some s) :
    ∀ (segs : List (List Nat)) (ctr : Nat),
      decryptSegs G dkey npfx ctr (encryptSegs G dkey npfx ctr segs)
        = .ok segs.flatten := by
  intro segs
  induction segs with
  | nil => intro ctr; rfl
  | cons s rest ih =>
    intro ctr
    rw [encryptSegs, decryptSegs]
    have hemp : (encryptSegs G dkey npfx (ctr + 1) rest).isEmpty
        = rest.isEmpty := by
      cases rest with
      | nil => rfl
      | cons b l => rfl
    rw [hemp, hGdec, ih (ctr + 1)]
    rfl

/-- Re-chunking the concatenated ciphertext segments of uniformly-sized
plaintext chunks recovers exactly those ciphertext segments: every
non-terminal chunk is full (`sz`), so its ciphertext is exactly
`sz + 16` bytes. -/
theorem chunks_encryptSegs (G : GcmModel) (dkey npfx : List Nat) (sz : Nat)
    (hsz : 0 < sz)
    (hGlen : ∀ k n s, (G.enc k n s).length = s.length + 16) :
    ∀ (n : Nat) (q : List Nat), q.length ≤ n → ∀ ctr,
      chunks (sz + 16) ((encryptSegs G dkey npfx ctr (chunks sz q)).flatten)
        = encryptSegs G dkey npfx ctr (chunks sz q) := by
  intro n
  induction n with
  | zero =>
    intro q hq ctr
    have hq0 : q = [] := List.eq_nil_of_length_eq_zero (Nat.le_zero.mp hq)
    subst hq0
    have h0 : chunks sz ([] : List Nat) = [[]] := rfl
    rw [h0, encryptSegs, encryptSegs]
    simp only [List.flatten_cons, List.flatten_nil, List.append_nil]
    rw [chunks_step (sz + 16) (by omega),
      if_pos (by rw [hGlen]; simp only [List.length_nil]; omega)]
  | succ n ih =>
    intro q hq ctr
    rw [chunks_step sz hsz q]
    by_cases hle : q.length ≤ sz
    · rw [if_pos hle, encryptSegs, encryptSegs]
      simp only [List.flatten_cons, List.flatten_nil, List.append_nil]
      rw [chunks_step (sz + 16) (by omega), if_pos (by rw [hGlen]; omega)]
    · rw [if_neg hle, encryptSegs]
      simp only [List.flatten_cons]
      have he0 : (G.enc dkey
          (segmentNonce npfx ctr (chunks sz (q.drop sz)).isEmpty)
          (q.take sz)).length = sz + 16 := by
        rw [hGlen, List.length_take]
        omega
      have hFne : 0 < ((encryptSegs G dkey npfx (ctr + 1)
          (chunks sz (q.drop sz))).flatten).length := by
        cases hc : chunks sz (q.drop sz) with
        | nil => exact absurd hc (chunks_ne_nil sz _)
        | cons x xs =>
          rw [encryptSegs]
          simp only [List.flatten_cons, List.length_append]
          rw [hGlen]
          omega
      rw [chunks_step (sz + 16) (by omega),
        if_neg (by simp only [List.length_append, he0]; omega),
        List.take_left' he0, List.drop_left' he0,
        ih (q.drop sz) (by rw [List.length_drop]; omega) (ctr + 1)]

/-- Re-chunking the whole ciphertext body recovers the writer's ciphertext
segments, first-segment capacity included. -/
theorem ctChunks_encryptSegs (G : GcmModel) (dkey npfx : List Nat)
    (f sz : Nat) (hsz : 0 < sz)
    (hGlen : ∀ k n s, (G.enc k n s).length = s.length + 16) (p : List Nat) :
    ctChunks (f + 16) (sz + 16)
        ((encryptSegs G dkey npfx 0 (segmentsOf f sz p)).flatten)
      = encryptSegs G dkey npfx 0 (segmentsOf f sz p) := by
  rw [segmentsOf]
  by_cases hle : p.length ≤ f
  · rw [if_pos hle, encryptSegs, encryptSegs]
    simp only [List.flatten_cons, List.flatten_nil, List.append_nil]
    rw [ctChunks, if_pos (by rw [hGlen]; omega)]
  · rw [if_neg hle, encryptSegs]
    simp only [List.flatten_cons, Nat.zero_add]
    have he0 : (G.enc dkey
        (segmentNonce npfx 0 (chunks sz (p.drop f)).isEmpty)
        (p.take f)).length = f + 16 := by
      rw [hGlen, List.length_take]
      omega
    have hFne : 0 < ((encryptSegs G dkey npfx 1
        (chunks sz (p.drop f))).flatten).length := by
      cases hc : chunks sz (p.drop f) with
      | nil => exact absurd hc (chunks_ne_nil sz _)
      | cons x xs =>
        rw [encryptSegs]
        simp only [List.flatten_cons, List.length_append]
        rw [hGlen]
        omega
    rw [ctChunks]
    rw [if_neg (by rw [List.length_append, he0]; omega)]
    rw [List.take_left' he0, List.drop_left' he0]
    rw [chunks_encryptSegs G dkey npfx sz hsz hGlen (p.drop f).length
        (p.drop f) (Nat.le_refl _) 1]

/-- C1: streaming round-trip.  For any `AesGcmHkdf` accepted by `new`
(key size 16 or 32, `ciphertext_segment_size > first_segment_offset +
header_len + 16`), any associated data and any plaintext of length at most
`10 * plaintext_segment_size`, writing the plaintext through the
encrypting writer (with its random salt and nonce prefix) and reading the
whole stream back through the decrypting reader with the same associated
data reproduces the plaintext, given that the external AES-GCM engine
round-trips with a 16-byte tag and HKDF returns the requested length. -/
theorem streaming_roundtrip (G : GcmModel) (hkdf : HkdfFn)
    (hGdec : ∀ k n s, G.dec k n (G.enc k n s) = some s)
    (hGlen : ∀ k n s, (G.enc k n s).length = s.length + 16)
    (hklen : ∀ alg2 ikm salt2 info L, (hkdf alg2 ikm salt2 info L).length = L)
    (mk : List Nat) (alg : HashType) (ks cs fso : Nat) (a : AesGcmHkdf)
    (hnew : AesGcmHkdf.new mk alg ks cs fso = .ok a)
    (salt npfx aad p : List Nat)
    (hsalt : salt.length = a.key_size_in_bytes) (hnp : npfx.length = 7)
    (hp : p.length ≤ 10 * a.plaintext_segment_size) :
    (encryptStream G hkdf a salt npfx aad p).isOk = true
    ∧ ∀ out, encryptStream G hkdf a salt npfx aad p = .ok out →
        decryptStream G hkdf a aad out = .ok p := by
  obtain ⟨he, hks16, -, -, hlt⟩ :=
    AesGcmHkdf.new_ok_fields mk alg ks cs fso a hnew
  have hksz : a.key_size_in_bytes = ks := by rw [he]
  have hps : a.plaintext_segment_size = cs - 16 := by rw [he]
  have hfo : a.first_ciphertext_segment_offset = fso + (1 + ks + 7) := by
    rw [he]
  have hcsz : a.ciphertext_segment_size = cs := by rw [he]
  have hhl : a.header_length = 1 + ks + 7 := by rw [he]; rfl
  have hks_le : ks ≤ 32 := by rcases hks16 with h | h <;> omega
  have hpsz : 0 < a.plaintext_segment_size := by omega
  have hdk : (a.derive_key hkdf salt aad).length = ks := by
    rw [AesGcmHkdf.derive_key, hklen, hksz]
  have hchk : new_cipher_key_check (a.derive_key hkdf salt aad) = .ok () := by
    rw [new_cipher_key_check]
    rcases hks16 with h | h
    · rw [if_pos (by omega)]
    · rw [if_neg (by omega), if_pos (by omega)]
  have hsegs_le : (segmentsOf
      (a.plaintext_segment_size - a.first_ciphertext_segment_offset)
      a.plaintext_segment_size p).length ≤ 12 := by
    rw [segmentsOf]
    by_cases hle : p.length ≤
        a.plaintext_segment_size - a.first_ciphertext_segment_offset
    · rw [if_pos hle]
      simp
    · rw [if_neg hle, List.length_cons]
      have := chunks_length_le a.plaintext_segment_size hpsz 10
        (p.drop (a.plaintext_segment_size - a.first_ciphertext_segment_offset))
        (by rw [List.length_drop]; omega)
      omega
  have hout : encryptStream G hkdf a salt npfx aad p =
      .ok ((a.header_length :: salt ++ npfx) ++
        (encryptSegs G (a.derive_key hkdf salt aad) npfx 0
          (segmentsOf
            (a.plaintext_segment_size - a.first_ciphertext_segment_offset)
            a.plaintext_segment_size p)).flatten) := by
    rw [encryptStream, hchk, eb_ok, if_neg (by omega), if_neg (by omega)]
  refine ⟨by rw [hout]; rfl, ?_⟩
  intro out hout2
  rw [hout] at hout2
  injection hout2 with e
  subst e
  simp only [List.cons_append, List.append_assoc]
  rw [decryptStream, if_neg (not_not_intro rfl)]
  simp only [AES_GCM_HKDF_NONCE_PREFIX_SIZE_IN_BYTES]
  rw [if_neg (by simp only [List.length_append]; omega),
    List.take_left' hsalt, List.drop_left' hsalt,
    if_neg (by simp only [List.length_append]; omega),
    List.take_left' hnp, List.drop_left' hnp, hchk, eb_ok]
  have hc0 : a.ciphertext_segment_size - a.first_ciphertext_segment_offset
      = (a.plaintext_segment_size - a.first_ciphertext_segment_offset) + 16 := by
    omega
  have hcs2 : a.ciphertext_segment_size = a.plaintext_segment_size + 16 := by
    omega
  rw [hc0, hcs2,
    ctChunks_encryptSegs G (a.derive_key hkdf salt aad) npfx
      (a.plaintext_segment_size - a.first_ciphertext_segment_offset)
      a.plaintext_segment_size hpsz hGlen p,
    decryptSegs_encryptSegs G (a.derive_key hkdf salt aad) npfx hGdec,
    segmentsOf_flatten _ _ hpsz]

/-- The concrete engine `trivGcm` round-trips. -/
theorem trivGcm_roundtrip (k n s : List Nat) :
    trivGcm.dec k n (trivGcm.enc k n s) = some s := by
  simp only [trivGcm]
  rw [if_neg (by simp), List.length_append, List.length_replicate,
    Nat.add_sub_cancel, List.take_left]

/-- The concrete engine `trivGcm` adds a 16-byte tag. -/
theorem trivGcm_len (k n s : List Nat) :
    (trivGcm.enc k n s).length = s.length + 16 := by
  simp [trivGcm]

/-- The concrete `trivHkdf` returns the requested length. -/
theorem trivHkdf_len (alg2 : HashType) (ikm salt2 info : List Nat) (L : Nat) :
    (trivHkdf alg2 ikm salt2 info L).length = L := by
  simp [trivHkdf]

/-- C1 witness: a full write-then-read round trip at concrete parameters
(32-byte key, segment size 100, offset 0, 3-byte plaintext). -/
theorem streaming_roundtrip_witness :
    eb (encryptStream trivGcm trivHkdf aWit (List.replicate 32 1)
        (List.replicate 7 2) [] [5, 6, 7])
      (decryptStream trivGcm trivHkdf aWit []) = .ok [5, 6, 7] := by
  have h := streaming_roundtrip trivGcm trivHkdf trivGcm_roundtrip trivGcm_len
    trivHkdf_len (List.replicate 32 0) HashType.Sha256 32 100 0 aWit rfl
    (List.replicate 32 1) (List.replicate 7 2) [] [5, 6, 7]
    (by simp [aWit]) (by simp) (by simp [aWit])
  cases hout : encryptStream trivGcm trivHkdf aWit (List.replicate 32 1)
      (List.replicate 7 2) [] [5, 6, 7] with
  | error e =>
    rw [hout] at h
    exact absurd h.1 (by simp [Except.isOk, Except.toBool])
  | ok out =>
    rw [eb_ok]
    exact h.2 out hout

/-! ## C2: AEAD round-trip (spec-modelled wrapper) -/

/-- Modelled from the spec: a one-shot AEAD primitive; the concrete cipher
(AES-GCM) is a vetted external collaborator (§1), so it is a parameter. -/
structure AeadPrim where
  encrypt : List Nat → List Nat → List Nat
  decrypt : List Nat → List Nat → Except String (List Nat)

/-- Modelled from the spec (§3): the Tink output-prefix bytes are one
version byte 0x01 followed by the big-endian 4-byte key id. -/
def tinkPrefixBytes (key_id : Nat) : List Nat :=
  1 :: be32 key_id

/-- An entry of the AEAD primitive set as the wrapper sees it: the
output-prefix bytes and the live primitive. -/
structure AeadEntry where
  prefix_bytes : List Nat
  primitive : AeadPrim

/-- Modelled from the spec (§6): the wrapped AEAD's encrypt prepends the
primary entry's output-prefix bytes to the raw ciphertext. -/
def wrappedEncrypt (primary : AeadEntry) (pt aadb : List Nat) : List Nat :=
  primary.prefix_bytes ++ primary.primitive.encrypt pt aadb

/-- Modelled from the spec (§7): try the candidate entries in order;
recoverable per-key failures silently continue the search, and the final
no-key-matched condition is InvalidCiphertext. -/
def tryDecryptList (aadb : List Nat) :
    List AeadEntry → List Nat → Except String (List Nat)
  | [], _ => .error ("aead_factory: decryption failed")
  | ent :: rest, c =>
    match ent.primitive.decrypt c aadb with
    | .ok pt => .ok pt
    | .error _ => tryDecryptList aadb rest c

/-- Modelled from the spec (§6): the wrapped AEAD's decrypt looks up
candidate entries by matching the incoming 5-byte prefix and tries them
on the remainder; raw entries (empty prefix) are tried on the whole
ciphertext as a fallback when no prefix match succeeds. -/
def wrappedDecrypt (entries : List AeadEntry) (ct aadb : List Nat) :
    Except String (List Nat) :=
  match tryDecryptList aadb
      (entries.filter (fun ent => ent.prefix_bytes == ct.take 5))
      (ct.drop 5) with
  | .ok pt => .ok pt
  | .error _ =>
    tryDecryptList aadb
      (entries.filter (fun ent => ent.prefix_bytes == ([] : List Nat))) ct

/-- C2: AEAD round-trip.  For the AEAD obtained from a keyset handle
minted from a Tink-prefix template (a single-key primitive set whose
entry carries the Tink prefix bytes for its key id), decrypting an
encryption under the same associated data returns the plaintext, provided
the underlying cipher round-trips. -/
theorem aead_roundtrip (e : AeadEntry) (key_id : Nat) (p d : List Nat)
    (hpfx : e.prefix_bytes = tinkPrefixBytes key_id)
    (hrt : e.primitive.decrypt (e.primitive.encrypt p d) d = .ok p) :
    wrappedDecrypt [e] (wrappedEncrypt e p d) d = .ok p := by
  have h5 : e.prefix_bytes.length = 5 := by
    rw [hpfx]
    rfl
  rw [wrappedEncrypt, wrappedDecrypt, List.take_left' h5, List.drop_left' h5]
  have hfil : ([e].filter (fun ent => ent.prefix_bytes == e.prefix_bytes))
      = [e] := by
    simp [List.filter]
  rw [hfil, tryDecryptList, hrt]

/-- A trivial inner AEAD for the C2 witness. -/
def trivAead : AeadPrim :=
  { encrypt := fun pt _ => pt, decrypt := fun c _ => .ok c }

/-- C2 witness: the round trip at a concrete single-entry set. -/
theorem aead_roundtrip_witness :
    wrappedDecrypt [{ prefix_bytes := tinkPrefixBytes 1, primitive := trivAead }]
      (wrappedEncrypt { prefix_bytes := tinkPrefixBytes 1, primitive := trivAead }
        [9, 8] [3]) [3] = .ok [9, 8] :=
  aead_roundtrip { prefix_bytes := tinkPrefixBytes 1, primitive := trivAead }
    1 [9, 8] [3] rfl rfl

end TinkProof
